import Mathlib

/-!
Verification of the framed transactional link protocols of pyFIS.

Shallow embedding of three protocol implementations:
* `MIS1` — `pyfis/aegmis/mis1_protocol.py` (escape codec, additive checksum,
  telegram framing, response reader);
* `IBIS` — `pyfis/ibis/ibis_protocol.py` (XOR checksum telegram wrapper);
* `K9000` — `pyfis/krone/k9000_rs485.py` (chunked transactional sender with
  bounded Busy retries).

Bytes are modelled as `Nat` (Python ints); byte streams as `List Nat`.
The serial transport is modelled by explicit lists: the stream of bytes
available to read, and the trace of frames written.
-/

namespace MIS1

/-- The reserved byte set of `MIS1Protocol.escape`: STX, ETX, EOT, ENQ, DLE. -/
def reservedByte (b : Nat) : Bool :=
  b == 0x02 || b == 0x03 || b == 0x04 || b == 0x05 || b == 0x10

/-- `MIS1Protocol.escape`: insert the marker 0x10 before each reserved byte. -/
def escape : List Nat → List Nat
  | [] => []
  | b :: rest =>
    if reservedByte b then 0x10 :: b :: escape rest
    else b :: escape rest

/-- Loop of `MIS1Protocol.unescape`, carrying the `escape_active` flag. -/
def unescapeAux : Bool → List Nat → List Nat
  | _, [] => []
  | ea, b :: rest =>
    if !ea && b == 0x10 then unescapeAux true rest
    else b :: unescapeAux false rest

/-- `MIS1Protocol.unescape`: drop a marker byte, emit the following byte. -/
def unescape (data : List Nat) : List Nat :=
  unescapeAux false data

/-- `MIS1Protocol.checksum`: additive sum modulo 256 with the high bit forced. -/
def checksum (data : List Nat) : Nat :=
  (data.sum % 256) ||| 0x80

/-- `MIS1Protocol.send_raw_telegram`: the byte sequence written to the port. -/
def send_raw_telegram (address : Nat) (data : List Nat) : List Nat :=
  [0x04, 0x80 ||| address, 0x02] ++ escape data ++ [0x03] ++ [checksum (data ++ [0x03])]

theorem unescapeAux_escape_append (p : List Nat) :
    ∀ rest, unescapeAux false (escape p ++ rest) = p ++ unescapeAux false rest := by
  induction p with
  | nil => intro rest; rfl
  | cons b p ih =>
    intro rest
    by_cases hb : reservedByte b = true
    · simp [escape, hb, unescapeAux, ih rest]
    · have hb16 : (b == 0x10) = false := by
        have h := Bool.not_eq_true _ |>.mp hb
        simp only [reservedByte, Bool.or_eq_false_iff] at h
        exact h.2
      simp [escape, hb, unescapeAux, hb16, ih rest]

/-- C1: unescaping the escaped form returns the original payload, for every
byte sequence: `unescape (escape p) = p`. -/
theorem unescape_escape_roundtrip (p : List Nat) : unescape (escape p) = p := by
  have h := unescapeAux_escape_append p []
  simpa [unescape, unescapeAux] using h

/-- C5: the trailing checksum byte of a telegram built by `send_raw_telegram`
is `((sum data + 0x03) % 256) ||| 0x80`: computed over the unescaped payload
plus the end marker, and its high bit (bit 7) is always set. -/
theorem send_raw_telegram_checksum (address : Nat) (data : List Nat) :
    (send_raw_telegram address data).getLast? = some (((data.sum + 0x03) % 256) ||| 0x80)
    ∧ ∀ c, (send_raw_telegram address data).getLast? = some c → c.testBit 7 = true := by
  have hform : send_raw_telegram address data =
      ([0x04, 0x80 ||| address, 0x02] ++ escape data ++ [0x03])
        ++ [((data.sum + 0x03) % 256) ||| 0x80] := by
    simp [send_raw_telegram, checksum]
  constructor
  · rw [hform, List.getLast?_concat]
  · intro c hc
    rw [hform, List.getLast?_concat] at hc
    have : c = ((data.sum + 0x03) % 256) ||| 0x80 := by
      exact (Option.some.injEq _ _ ▸ hc).symm
    subst this
    simp only [Nat.testBit_or, Bool.or_eq_true]
    exact Or.inr (by decide)

/-- C6 counterexample: on an input ending in a dangling escape marker 0x10,
`unescape` does not report a malformed input: it silently returns the decoded
byte sequence with the dangling marker discarded. -/
theorem unescape_dangling_marker_truncates : unescape [0x41, 0x10] = [0x41] := by
  decide

/-- C6 amended: `unescape` has no error channel at all; an input ending in an
incomplete escape sequence is silently truncated: the dangling marker is
dropped and the decoded payload of the well-formed part is returned. -/
theorem unescape_drops_dangling_marker (d : List Nat) :
    unescape (escape d ++ [0x10]) = d := by
  have h := unescapeAux_escape_append d [0x10]
  simpa [unescape, unescapeAux] using h

/-- Scanner for literal reserved bytes: processes a byte sequence tracking
escape-pair state and returns `false` iff a reserved byte other than the
escape marker occurs outside an escape pair. -/
def noLiteralReserved : Bool → List Nat → Bool
  | _, [] => true
  | true, _ :: rest => noLiteralReserved false rest
  | false, b :: rest =>
    if b == 0x10 then noLiteralReserved true rest
    else if reservedByte b then false
    else noLiteralReserved false rest

theorem noLiteralReserved_escape (p : List Nat) :
    noLiteralReserved false (escape p) = true := by
  induction p with
  | nil => rfl
  | cons b p ih =>
    by_cases hb : reservedByte b = true
    · simp [escape, hb, noLiteralReserved, ih]
    · have hb16 : (b == 0x10) = false := by
        have h := Bool.not_eq_true _ |>.mp hb
        simp only [reservedByte, Bool.or_eq_false_iff] at h
        exact h.2
      simp [escape, hb, noLiteralReserved, hb16, ih]

/-- C8: `escape` prepends the marker 0x10 before every reserved byte and its
output contains no literal reserved byte outside an escape pair; in
particular, escaping `[0x01, 0x02, 0x10]` yields
`[0x01, 0x10, 0x02, 0x10, 0x10]`. -/
theorem escape_stuffing_correct :
    escape [0x01, 0x02, 0x10] = [0x01, 0x10, 0x02, 0x10, 0x10]
    ∧ ∀ p : List Nat, noLiteralReserved false (escape p) = true := by
  exact ⟨by decide, noLiteralReserved_escape⟩

/-- The noise-skipping loop of `MIS1Protocol.read_response`: the current byte
and the remaining stream; consumes bytes until the current byte is the start
marker 0x02, returning the unread remainder (`none` on stream exhaustion). -/
def skipToStart (start : Nat) (stream : List Nat) : Option (List Nat) :=
  if start == 0x02 then some stream
  else
    match stream with
    | [] => none
    | b :: rest => skipToStart b rest

/-- The accumulation loop of `MIS1Protocol.read_response`: escape-state flag,
accumulated response, remaining stream. On an unescaped end marker 0x03, one
further checksum byte is read; returns the response together with the unread
remainder of the stream. -/
def readLoop : Bool → List Nat → List Nat → Option (List Nat × List Nat)
  | _, _, [] => none
  | false, acc, b :: rest =>
    if b == 0x10 then readLoop true acc rest
    else if b == 0x03 then
      match rest with
      | [] => none
      | c :: rest2 => some (acc ++ [b, c], rest2)
    else readLoop false (acc ++ [b]) rest
  | true, acc, b :: rest => readLoop false (acc ++ [b]) rest

/-- `MIS1Protocol.read_response` over an explicit input stream: returns the
accumulated response and the unread remainder of the stream, or `none` where
the code raises `CommunicationError` on an empty read. -/
def read_response : List Nat → Option (List Nat × List Nat)
  | [] => none
  | start :: rest =>
    if start == 0x06 || start == 0x15 then some ([start], rest)
    else
      match skipToStart start rest with
      | none => none
      | some rest2 => readLoop false [0x02] rest2

theorem skipToStart_found (stream : List Nat) : skipToStart 0x02 stream = some stream := by
  rw [skipToStart.eq_def]
  simp

theorem skipToStart_step (b x : Nat) (rest : List Nat) (hb : (b == 0x02) = false) :
    skipToStart b (x :: rest) = skipToStart x rest := by
  rw [skipToStart.eq_def]
  simp [hb]

theorem skipToStart_skips_garbage :
    ∀ (g : List Nat) (b : Nat), (b == 0x02) = false → (∀ x ∈ g, (x == 0x02) = false) →
      ∀ body, skipToStart b (g ++ 0x02 :: body) = some body := by
  intro g
  induction g with
  | nil =>
    intro b hb _ body
    simp only [List.nil_append]
    rw [skipToStart_step b 0x02 body hb, skipToStart_found]
  | cons y g ih =>
    intro b hb hg body
    have hy : (y == 0x02) = false := hg y (List.mem_cons_self y g)
    have hg2 : ∀ x ∈ g, (x == 0x02) = false := fun x hx => hg x (List.mem_cons_of_mem y hx)
    simp only [List.cons_append]
    rw [skipToStart_step b y (g ++ 0x02 :: body) hb]
    exact ih y hy hg2 body

theorem readLoop_escape_passthrough (p : List Nat) :
    ∀ (acc rest : List Nat),
      readLoop false acc (escape p ++ rest) = readLoop false (acc ++ p) rest := by
  induction p with
  | nil => intro acc rest; simp [escape]
  | cons b p ih =>
    intro acc rest
    by_cases hb : reservedByte b = true
    · have : readLoop false acc (escape (b :: p) ++ rest)
          = readLoop false (acc ++ [b]) (escape p ++ rest) := by
        simp [escape, hb, readLoop]
      rw [this, ih (acc ++ [b]) rest]
      simp
    · have hspec : (b == 0x10) = false ∧ (b == 0x03) = false := by
        have h := Bool.not_eq_true _ |>.mp hb
        simp only [reservedByte, Bool.or_eq_false_iff] at h
        exact ⟨h.2, h.1.1.1.2⟩
      have : readLoop false acc (escape (b :: p) ++ rest)
          = readLoop false (acc ++ [b]) (escape p ++ rest) := by
        simp [escape, hb, readLoop, hspec.1, hspec.2]
      rw [this, ih (acc ++ [b]) rest]
      simp

/-- Head-byte condition of C7: the first byte of the leading noise, when
there is one, is not one of the single-byte statuses 0x06 and 0x15. -/
def headNotStatus : List Nat → Bool
  | [] => true
  | b :: _ => !(b == 0x06) && !(b == 0x15)

/-- C7: `read_response` tolerates leading noise and is escape-aware: for a
stream of garbage (containing no start marker, and whose first byte is not a
status byte) followed by a well-formed frame `0x02, escape p, 0x03, ck`, the
garbage is skipped, the frame is unescaped with end markers inside escape
pairs treated as data, and exactly one checksum byte is consumed after the
unescaped end marker: the result is `0x02 :: p ++ [0x03, ck]` with exactly
the trailing `rest` left unread. -/
theorem read_response_noise_tolerant (g p : List Nat) (ck : Nat) (rest : List Nat)
    (hg : ∀ x ∈ g, (x == 0x02) = false)
    (hh : headNotStatus g = true) :
    read_response (g ++ 0x02 :: (escape p ++ ([0x03, ck] ++ rest)))
      = some (0x02 :: (p ++ [0x03, ck]), rest) := by
  have hend : ∀ acc : List Nat, readLoop false acc ([0x03, ck] ++ rest)
      = some (acc ++ [0x03, ck], rest) := by
    intro acc
    simp [readLoop]
  have hbody : readLoop false [0x02] (escape p ++ ([0x03, ck] ++ rest))
      = some (0x02 :: (p ++ [0x03, ck]), rest) := by
    rw [readLoop_escape_passthrough p [0x02] ([0x03, ck] ++ rest), hend]
    simp
  cases g with
  | nil =>
    simp only [List.nil_append, read_response]
    rw [if_neg (by decide), skipToStart_found]
    exact hbody
  | cons b g2 =>
    have hb6 : (b == 0x06) = false ∧ (b == 0x15) = false := by
      simp only [headNotStatus, Bool.and_eq_true, Bool.not_eq_true'] at hh
      exact hh
    have hb2 : (b == 0x02) = false := hg b (List.mem_cons_self b g2)
    have hg2 : ∀ x ∈ g2, (x == 0x02) = false := fun x hx => hg x (List.mem_cons_of_mem b hx)
    have hskip := skipToStart_skips_garbage g2 b hb2 hg2 (escape p ++ ([0x03, ck] ++ rest))
    simp only [List.cons_append, read_response]
    rw [if_neg (by simp [hb6.1, hb6.2])]
    simp only [List.cons_append, List.nil_append] at hskip hbody ⊢
    rw [hskip]
    exact hbody

/-- C7 witness: a concrete garbage run followed by a frame whose payload is a
lone escaped end marker; `read_response` skips the noise, decodes the escaped
end marker as data, and consumes exactly one checksum byte. -/
theorem read_response_noise_tolerant_witness :
    read_response ([0xAA, 0x06] ++ 0x02 :: (escape [0x03] ++ ([0x03, 0x99] ++ [0x55])))
      = some (0x02 :: ([0x03] ++ [0x03, 0x99]), [0x55]) :=
  read_response_noise_tolerant [0xAA, 0x06] [0x03] 0x99 [0x55] (by decide) (by decide)

end MIS1

namespace IBIS

/-- `IBISProtocol.wrap_telegram`: append the end byte 0x0D, then append the
XOR checksum with seed 0x7F computed over the telegram including the end
byte. -/
def wrap_telegram (telegram : List Nat) : List Nat :=
  (telegram ++ [0x0D]) ++ [(telegram ++ [0x0D]).foldl (fun c b => c ^^^ b) 0x7F]

/-- C9 counterexample: wrapping the payload `[0xAA]` does not end in the byte
`0x7F ^^^ 0xAA = 0xD5`. -/
theorem wrap_telegram_aa_not_d5 :
    ¬ (wrap_telegram [0xAA]).getLast? = some 0xD5 := by
  decide

/-- C9 amended: `wrap_telegram` appends the end byte 0x0D before computing
the checksum and includes it in the XOR fold, so the trailing checksum byte
of every wrapped telegram is the XOR of seed 0x7F with all telegram bytes
and 0x0D; for payload `[0xAA]` this is `0x7F ^^^ 0xAA ^^^ 0x0D = 0xD8`. -/
theorem wrap_telegram_checksum_includes_end_byte :
    wrap_telegram [0xAA] = [0xAA, 0x0D, 0x7F ^^^ 0xAA ^^^ 0x0D]
    ∧ ∀ t : List Nat, (wrap_telegram t).getLast?
        = some ((t ++ [0x0D]).foldl (fun c b => c ^^^ b) 0x7F) := by
  constructor
  · decide
  · intro t
    rw [wrap_telegram, List.getLast?_concat]

end IBIS

namespace K9000

def FLAG_ACK : Nat := 0x80
def CTRL_READ : Nat := 0x01
def CTRL_WRITE_SINGLE : Nat := 0x02
def CTRL_WRITE_BLOCK : Nat := 0x04
def STATUS_ACK : Nat := 0x06
def STATUS_BUSY : Nat := 0x10
def STATUS_NACK : Nat := 0x15
def MAX_CHUNK_SIZE : Nat := 128
def RETRY_COUNT : Nat := 10

/-- `Krone9000RS485Controller.make_checksum`: XOR fold over the payload. -/
def make_checksum (payload : List Nat) : Nat :=
  payload.foldl (fun c b => c ^^^ b) 0x00

/-- Fuel-driven worker for `_chunks`: slices of size `n` from the front.
The fuel is instantiated with the list length; the `0`-fuel case and the
`n = 0` behaviour are unreachable in the modelled calls (the code always
chunks with `MAX_CHUNK_SIZE = 128`). -/
def chunksOfF (n : Nat) : Nat → List Nat → List (List Nat)
  | _, [] => []
  | 0, _ => []
  | fuel + 1, l => l.take n :: chunksOfF n fuel (l.drop n)

/-- `_chunks(lst, n)` of `Krone9000RS485Controller.send_command`: successive
`n`-sized chunks of the list. -/
def chunksOf (n : Nat) (l : List Nat) : List (List Nat) :=
  chunksOfF n l.length l

/-- One frame of `send_command`: header 0xFF 0xFF, then the payload
`[board id, address, length, control, sequence number] ++ chunk ++ [0x00]`
(with the length byte patched in before the checksum is taken), then the XOR
checksum of the payload. -/
def buildFrame (boardId address control seq : Nat) (chunk : List Nat) : List Nat :=
  [0xFF, 0xFF]
    ++ ([boardId, address, chunk.length + 6, control, seq] ++ chunk ++ [0x00])
    ++ [make_checksum ([boardId, address, chunk.length + 6, control, seq] ++ chunk ++ [0x00])]

/-- Classification performed by `Krone9000RS485Controller.check_status` on
the status byte read from the port. -/
inductive Status where
  | ack : Status
  | busy : Status
  | nack : Status
  | unknown : Nat → Status
  | empty : Status
  deriving DecidableEq

def classifyStatus (b : Nat) : Status :=
  if b == STATUS_ACK then Status.ack
  else if b == STATUS_BUSY then Status.busy
  else if b == STATUS_NACK then Status.nack
  else Status.unknown b

/-- `check_status` over an explicit stream of status bytes: consumes one byte
and classifies it; `Status.empty` models the failed read on an exhausted
stream. -/
def check_status : List Nat → Status × List Nat
  | [] => (Status.empty, [])
  | b :: rest => (classifyStatus b, rest)

/-- The exception terminating a `send_command` call: `BusyError` escaping the
exhausted retry loop, `NACKError`, `CommunicationError` for an unknown status
byte or a payload too long for single-block transfer, and the failed read on
an empty stream. -/
inductive SendError where
  | busy : SendError
  | nack : SendError
  | unknown : Nat → SendError
  | empty : SendError
  | tooLong : SendError
  deriving DecidableEq

/-- Observable outcome of a `send_command` call: the frames written to the
port in order, the number of retry-interval sleeps, the unread remainder of
the status stream, and the terminating exception, if any. -/
structure TxResult where
  writes : List (List Nat)
  sleeps : Nat
  leftover : List Nat
  err : Option SendError
  deriving DecidableEq

/-- The inner retry loop of `send_command` for an acknowledged write: each
iteration writes the frame and reads one status byte; Ack breaks out, Busy
either re-raises on the last iteration or sleeps and retries, Nack and
unknown statuses propagate immediately. `retriesLeft` counts the remaining
iterations of `range(RETRY_COUNT)`. -/
def writeRetryLoop (frame : List Nat) : Nat → List Nat → TxResult
  | 0, statuses => ⟨[], 0, statuses, none⟩
  | _ + 1, [] => ⟨[frame], 0, [], some SendError.empty⟩
  | n + 1, b :: rest =>
    if b == STATUS_ACK then ⟨[frame], 0, rest, none⟩
    else if b == STATUS_BUSY then
      (if n == 0 then ⟨[frame], 0, rest, some SendError.busy⟩
       else
         let r := writeRetryLoop frame n rest
         ⟨frame :: r.writes, r.sleeps + 1, r.leftover, r.err⟩)
    else if b == STATUS_NACK then ⟨[frame], 0, rest, some SendError.nack⟩
    else ⟨[frame], 0, rest, some (SendError.unknown b)⟩

/-- The chunk loop of `send_command` for acknowledged writes: chunks are sent
strictly in order with 1-based sequence numbers; a failing chunk aborts the
loop by propagating its exception. -/
def sendChunksAck (boardId address control : Nat) : Nat → List (List Nat) → List Nat → TxResult
  | _, [], statuses => ⟨[], 0, statuses, none⟩
  | seq, chunk :: more, statuses =>
    let r := writeRetryLoop (buildFrame boardId address control seq chunk) RETRY_COUNT statuses
    match r.err with
    | some e => ⟨r.writes, r.sleeps, r.leftover, some e⟩
    | none =>
      let r2 := sendChunksAck boardId address control (seq + 1) more r.leftover
      ⟨r.writes ++ r2.writes, r.sleeps + r2.sleeps, r2.leftover, r2.err⟩

/-- The chunk loop for unacknowledged writes: with no status check the inner
`for retry in range(RETRY_COUNT)` loop never breaks, so every chunk frame is
written `RETRY_COUNT` times. -/
def sendChunksNoAck (boardId address control : Nat) : Nat → List (List Nat) → List (List Nat)
  | _, [] => []
  | seq, chunk :: more =>
    List.replicate RETRY_COUNT (buildFrame boardId address control seq chunk)
      ++ sendChunksNoAck boardId address control (seq + 1) more

/-- The chunk loop for read transactions (`response=True`): the retry loop
breaks unconditionally after the first write, so each chunk frame is written
exactly once and no status byte is read. -/
def sendChunksRead (boardId address control : Nat) : Nat → List (List Nat) → List (List Nat)
  | _, [] => []
  | seq, chunk :: more =>
    buildFrame boardId address control seq chunk
      :: sendChunksRead boardId address control (seq + 1) more

/-- `Krone9000RS485Controller.send_command` over an explicit status-byte
stream: data is the command byte followed by the parameters; oversized data
without block mode raises before anything is written; otherwise the chunks
are processed by the loop matching the `response`/`ack` flags. The final
`read_response()` call of read transactions is outside the modelled
transmission phase. -/
def send_command (boardId address command : Nat) (parameters : List Nat)
    (response ack block : Bool) (statuses : List Nat) : TxResult :=
  let data := command :: parameters
  if MAX_CHUNK_SIZE < data.length ∧ ¬block then
    ⟨[], 0, statuses, some SendError.tooLong⟩
  else
    let control0 := if response then CTRL_READ
      else if block then CTRL_WRITE_BLOCK else CTRL_WRITE_SINGLE
    let control := if ack then control0 ||| FLAG_ACK else control0
    let chunks := chunksOf MAX_CHUNK_SIZE data
    if response then ⟨sendChunksRead boardId address control 1 chunks, 0, statuses, none⟩
    else if ack then sendChunksAck boardId address control 1 chunks statuses
    else ⟨sendChunksNoAck boardId address control 1 chunks, 0, statuses, none⟩

/-- The 1-based sequence number carried by a frame: byte index 6. -/
def seqOf (f : List Nat) : Nat := f.getD 6 0

theorem seqOf_buildFrame (boardId address control seq : Nat) (chunk : List Nat) :
    seqOf (buildFrame boardId address control seq chunk) = seq := rfl

theorem chunk_div_step (L n : Nat) (hn : 0 < n) (hL : 0 < L) :
    (L - n + n - 1) / n + 1 = (L + n - 1) / n := by
  have h1 : L + n - 1 = (L - 1) + n := by omega
  rw [h1, Nat.add_div_right _ hn]
  rcases le_or_lt L n with h | h
  · have e1 : L - n + n - 1 = n - 1 := by omega
    rw [e1, Nat.div_eq_of_lt (by omega : n - 1 < n),
      Nat.div_eq_of_lt (by omega : L - 1 < n)]
  · have e1 : L - n + n - 1 = L - 1 := by omega
    rw [e1]

theorem chunksOfF_flatten (n : Nat) (hn : 0 < n) :
    ∀ (fuel : Nat) (l : List Nat), l.length ≤ fuel → (chunksOfF n fuel l).flatten = l := by
  intro fuel
  induction fuel with
  | zero =>
    intro l hl
    have : l = [] := List.eq_nil_of_length_eq_zero (Nat.le_zero.mp hl)
    subst this
    rfl
  | succ m ih =>
    intro l hl
    cases l with
    | nil => rfl
    | cons x xs =>
      have hdrop : ((x :: xs).drop n).length ≤ m := by
        simp only [List.length_drop, List.length_cons]
        simp only [List.length_cons] at hl
        omega
      simp only [chunksOfF, List.flatten_cons, ih _ hdrop]
      exact List.take_append_drop n (x :: xs)

theorem chunksOfF_length (n : Nat) (hn : 0 < n) :
    ∀ (fuel : Nat) (l : List Nat), l.length ≤ fuel →
      (chunksOfF n fuel l).length = (l.length + n - 1) / n := by
  intro fuel
  induction fuel with
  | zero =>
    intro l hl
    have : l = [] := List.eq_nil_of_length_eq_zero (Nat.le_zero.mp hl)
    subst this
    simp [chunksOfF, Nat.div_eq_of_lt (by omega : n - 1 < n)]
  | succ m ih =>
    intro l hl
    cases l with
    | nil => simp [chunksOfF, Nat.div_eq_of_lt (by omega : n - 1 < n)]
    | cons x xs =>
      have hdrop : ((x :: xs).drop n).length ≤ m := by
        simp only [List.length_drop, List.length_cons]
        simp only [List.length_cons] at hl
        omega
      simp only [chunksOfF, List.length_cons, ih _ hdrop, List.length_drop]
      exact chunk_div_step (xs.length + 1) n hn (by omega)

theorem chunksOf_flatten (n : Nat) (hn : 0 < n) (l : List Nat) : (chunksOf n l).flatten = l :=
  chunksOfF_flatten n hn l.length l (Nat.le_refl _)

theorem chunksOf_length (n : Nat) (hn : 0 < n) (l : List Nat) :
    (chunksOf n l).length = (l.length + n - 1) / n :=
  chunksOfF_length n hn l.length l (Nat.le_refl _)

theorem chunksOf_single (n : Nat) (x : Nat) (xs : List Nat) (h : (x :: xs).length ≤ n) :
    chunksOf n (x :: xs) = [x :: xs] := by
  have hdrop : (x :: xs).drop n = [] := List.drop_eq_nil_of_le h
  have htake : (x :: xs).take n = x :: xs := List.take_of_length_le h
  show chunksOfF n (xs.length + 1) (x :: xs) = [x :: xs]
  simp only [chunksOfF, htake, hdrop]

theorem chunksOf_cons (n : Nat) (x : Nat) (xs : List Nat) :
    chunksOf n (x :: xs)
      = (x :: xs).take n :: chunksOfF n xs.length ((x :: xs).drop n) := rfl

theorem writeRetryLoop_writes_frame (frame : List Nat) :
    ∀ (n : Nat) (statuses : List Nat),
      ∀ f ∈ (writeRetryLoop frame n statuses).writes, f = frame := by
  intro n
  induction n with
  | zero =>
    intro statuses f hf
    simp [writeRetryLoop] at hf
  | succ m ih =>
    intro statuses f hf
    cases statuses with
    | nil =>
      simp [writeRetryLoop] at hf
      exact hf
    | cons b rest =>
      by_cases h6 : (b == STATUS_ACK) = true
      · simp [writeRetryLoop, h6] at hf
        exact hf
      · by_cases h16 : (b == STATUS_BUSY) = true
        · by_cases hm : (m == 0) = true
          · simp [writeRetryLoop, h6, h16, hm] at hf
            exact hf
          · simp [writeRetryLoop, h6, h16, hm] at hf
            rcases hf with hf | hf
            · exact hf
            · exact ih rest f hf
        · by_cases h21 : (b == STATUS_NACK) = true
          · simp [writeRetryLoop, h6, h16, h21] at hf
            exact hf
          · simp [writeRetryLoop, h6, h16, h21] at hf
            exact hf

theorem writeRetryLoop_busy_step (frame : List Nat) (k : Nat) (rest : List Nat)
    (hk : k ≠ 0) :
    writeRetryLoop frame (k + 1) (STATUS_BUSY :: rest)
      = ⟨frame :: (writeRetryLoop frame k rest).writes,
         (writeRetryLoop frame k rest).sleeps + 1,
         (writeRetryLoop frame k rest).leftover,
         (writeRetryLoop frame k rest).err⟩ := by
  have hk2 : (k == 0) = false := by simpa using hk
  simp [writeRetryLoop, STATUS_BUSY, STATUS_ACK, hk2]

theorem writeRetryLoop_all_busy (frame : List Nat) :
    ∀ (n : Nat), 0 < n → ∀ (extra : List Nat),
      writeRetryLoop frame n (List.replicate n STATUS_BUSY ++ extra)
        = ⟨List.replicate n frame, n - 1, extra, some SendError.busy⟩ := by
  intro n
  induction n with
  | zero => intro h; omega
  | succ m ih =>
    intro _ extra
    cases m with
    | zero =>
      simp [writeRetryLoop, STATUS_BUSY, STATUS_ACK]
    | succ k =>
      have hrec := ih (Nat.succ_pos k) extra
      have hl : List.replicate (k + 1 + 1) STATUS_BUSY ++ extra
          = STATUS_BUSY :: (List.replicate (k + 1) STATUS_BUSY ++ extra) := by
        simp [List.replicate_succ]
      rw [hl, writeRetryLoop_busy_step frame (k + 1) _ (Nat.succ_ne_zero k), hrec]
      simp [List.replicate_succ, Nat.add_sub_cancel]

theorem writeRetryLoop_nack (frame : List Nat) (m : Nat) (rest : List Nat) :
    writeRetryLoop frame (m + 1) (STATUS_NACK :: rest)
      = ⟨[frame], 0, rest, some SendError.nack⟩ := by
  simp [writeRetryLoop, STATUS_NACK, STATUS_ACK, STATUS_BUSY]

theorem sendChunksAck_mem (boardId address control : Nat) :
    ∀ (chunks : List (List Nat)) (seq : Nat) (statuses : List Nat),
      ∀ f ∈ (sendChunksAck boardId address control seq chunks statuses).writes,
        ∃ i, i < chunks.length
          ∧ f = buildFrame boardId address control (seq + i) (chunks.getD i []) := by
  intro chunks
  induction chunks with
  | nil =>
    intro seq statuses f hf
    simp [sendChunksAck] at hf
  | cons chunk more ih =>
    intro seq statuses f hf
    simp only [sendChunksAck] at hf
    cases herr : (writeRetryLoop (buildFrame boardId address control seq chunk)
        RETRY_COUNT statuses).err with
    | some e =>
      rw [herr] at hf
      simp only [List.mem_cons] at hf
      have hfr := writeRetryLoop_writes_frame _ RETRY_COUNT statuses f hf
      exact ⟨0, by simp, by simpa using hfr⟩
    | none =>
      rw [herr] at hf
      simp only [List.mem_append] at hf
      rcases hf with hf | hf
      · have hfr := writeRetryLoop_writes_frame _ RETRY_COUNT statuses f hf
        exact ⟨0, by simp, by simpa using hfr⟩
      · rcases ih (seq + 1) _ f hf with ⟨i, hi, hfi⟩
        refine ⟨i + 1, by simpa using hi, ?_⟩
        simpa [Nat.add_assoc, Nat.add_comm 1 i] using hfi

theorem sendChunksAck_seq_lower (boardId address control : Nat)
    (chunks : List (List Nat)) (seq : Nat) (statuses : List Nat) :
    ∀ f ∈ (sendChunksAck boardId address control seq chunks statuses).writes,
      seq ≤ seqOf f := by
  intro f hf
  rcases sendChunksAck_mem boardId address control chunks seq statuses f hf with ⟨i, _, hfi⟩
  rw [hfi, seqOf_buildFrame]
  omega

theorem sendChunksAck_pairwise (boardId address control : Nat) :
    ∀ (chunks : List (List Nat)) (seq : Nat) (statuses : List Nat),
      (sendChunksAck boardId address control seq chunks statuses).writes.Pairwise
        (fun f g => seqOf f ≤ seqOf g) := by
  intro chunks
  induction chunks with
  | nil =>
    intro seq statuses
    simp [sendChunksAck]
  | cons chunk more ih =>
    intro seq statuses
    have hhead : ∀ f ∈ (writeRetryLoop (buildFrame boardId address control seq chunk)
        RETRY_COUNT statuses).writes, seqOf f = seq := by
      intro f hf
      rw [writeRetryLoop_writes_frame _ RETRY_COUNT statuses f hf, seqOf_buildFrame]
    have hpair : (writeRetryLoop (buildFrame boardId address control seq chunk)
        RETRY_COUNT statuses).writes.Pairwise (fun f g => seqOf f ≤ seqOf g) :=
      List.pairwise_of_forall_mem_list
        (fun f hf g hg => by rw [hhead f hf, hhead g hg])
    simp only [sendChunksAck]
    cases (writeRetryLoop (buildFrame boardId address control seq chunk)
        RETRY_COUNT statuses).err with
    | some e => exact hpair
    | none =>
      simp only [List.pairwise_append]
      refine ⟨hpair, ih (seq + 1) _, ?_⟩
      intro f hf g hg
      have h1 : seqOf f = seq := hhead f hf
      have h2 : seq + 1 ≤ seqOf g := sendChunksAck_seq_lower boardId address control
        more (seq + 1) _ g hg
      omega

theorem writeRetryLoop_mem_self (frame : List Nat) :
    ∀ (n : Nat), 0 < n → ∀ (statuses : List Nat),
      frame ∈ (writeRetryLoop frame n statuses).writes := by
  intro n
  induction n with
  | zero => intro h; omega
  | succ m _ =>
    intro _ statuses
    cases statuses with
    | nil => simp [writeRetryLoop]
    | cons b rest =>
      by_cases h6 : (b == STATUS_ACK) = true
      · simp [writeRetryLoop, h6]
      · by_cases h16 : (b == STATUS_BUSY) = true
        · by_cases hm : (m == 0) = true
          · simp [writeRetryLoop, h6, h16, hm]
          · simp [writeRetryLoop, h6, h16, hm]
        · by_cases h21 : (b == STATUS_NACK) = true
          · simp [writeRetryLoop, h6, h16, h21]
          · simp [writeRetryLoop, h6, h16, h21]

theorem sendChunksAck_abort_bound (boardId address control : Nat) :
    ∀ (chunks : List (List Nat)) (seq : Nat) (statuses : List Nat),
      (sendChunksAck boardId address control seq chunks statuses).err ≠ none →
      ∃ i, i < chunks.length
        ∧ (∀ j, j ≤ i →
            buildFrame boardId address control (seq + j) (chunks.getD j [])
              ∈ (sendChunksAck boardId address control seq chunks statuses).writes)
        ∧ ∀ f ∈ (sendChunksAck boardId address control seq chunks statuses).writes,
            seqOf f ≤ seq + i := by
  intro chunks
  induction chunks with
  | nil =>
    intro seq statuses herr
    simp [sendChunksAck] at herr
  | cons chunk more ih =>
    intro seq statuses herr
    have hhead : ∀ f ∈ (writeRetryLoop (buildFrame boardId address control seq chunk)
        RETRY_COUNT statuses).writes, seqOf f = seq := by
      intro f hf
      rw [writeRetryLoop_writes_frame _ RETRY_COUNT statuses f hf, seqOf_buildFrame]
    have hself := writeRetryLoop_mem_self (buildFrame boardId address control seq chunk)
      RETRY_COUNT (by decide) statuses
    simp only [sendChunksAck] at herr ⊢
    cases hcase : (writeRetryLoop (buildFrame boardId address control seq chunk)
        RETRY_COUNT statuses).err with
    | some e =>
      simp only [hcase] at herr ⊢
      refine ⟨0, by simp, ?_, fun f hf => by rw [hhead f hf, Nat.add_zero]⟩
      intro j hj
      have hj0 : j = 0 := Nat.le_zero.mp hj
      subst hj0
      simpa using hself
    | none =>
      simp only [hcase] at herr ⊢
      rcases ih (seq + 1)
          (writeRetryLoop (buildFrame boardId address control seq chunk)
            RETRY_COUNT statuses).leftover herr with ⟨i, hi, hmem, hbound⟩
      refine ⟨i + 1, by simpa using hi, ?_, ?_⟩
      · intro j hj
        cases j with
        | zero =>
          simp only [List.getD_cons_zero, Nat.add_zero]
          exact List.mem_append_left _ hself
        | succ k =>
          have hk : k ≤ i := by omega
          have := hmem k hk
          simp only [List.getD_cons_succ]
          have harith : seq + (k + 1) = seq + 1 + k := by omega
          rw [harith]
          exact List.mem_append_right _ this
      · intro f hf
        simp only [List.mem_append] at hf
        rcases hf with hf | hf
        · rw [hhead f hf]; omega
        · have := hbound f hf; omega

theorem sendChunksAck_success_mem (boardId address control : Nat) :
    ∀ (chunks : List (List Nat)) (seq : Nat) (statuses : List Nat),
      (sendChunksAck boardId address control seq chunks statuses).err = none →
      ∀ j, j < chunks.length →
        buildFrame boardId address control (seq + j) (chunks.getD j [])
          ∈ (sendChunksAck boardId address control seq chunks statuses).writes := by
  intro chunks
  induction chunks with
  | nil =>
    intro seq statuses _ j hj
    simp at hj
  | cons chunk more ih =>
    intro seq statuses herr j hj
    have hself := writeRetryLoop_mem_self (buildFrame boardId address control seq chunk)
      RETRY_COUNT (by decide) statuses
    simp only [sendChunksAck] at herr ⊢
    cases hcase : (writeRetryLoop (buildFrame boardId address control seq chunk)
        RETRY_COUNT statuses).err with
    | some e =>
      simp only [hcase] at herr
      exact Option.noConfusion herr
    | none =>
      simp only [hcase] at herr ⊢
      cases j with
      | zero =>
        simp only [List.getD_cons_zero, Nat.add_zero]
        exact List.mem_append_left _ hself
      | succ k =>
        have hk : k < more.length := by simpa using hj
        have := ih (seq + 1) _ herr k hk
        simp only [List.getD_cons_succ]
        have harith : seq + (k + 1) = seq + 1 + k := by omega
        rw [harith]
        exact List.mem_append_right _ this

theorem sendChunksRead_length (boardId address control : Nat) :
    ∀ (chunks : List (List Nat)) (seq : Nat),
      (sendChunksRead boardId address control seq chunks).length = chunks.length := by
  intro chunks
  induction chunks with
  | nil => intro seq; rfl
  | cons chunk more ih =>
    intro seq
    simp [sendChunksRead, ih (seq + 1)]

theorem sendChunksRead_getD (boardId address control : Nat) :
    ∀ (chunks : List (List Nat)) (seq i : Nat), i < chunks.length →
      (sendChunksRead boardId address control seq chunks).getD i []
        = buildFrame boardId address control (seq + i) (chunks.getD i []) := by
  intro chunks
  induction chunks with
  | nil =>
    intro seq i hi
    simp at hi
  | cons chunk more ih =>
    intro seq i hi
    cases i with
    | zero => simp [sendChunksRead]
    | succ j =>
      have hj : j < more.length := by simpa using hi
      have := ih (seq + 1) j hj
      simp only [sendChunksRead, List.getD_cons_succ, this]
      have : seq + 1 + j = seq + (j + 1) := by omega
      rw [this]

theorem send_command_block_ack (boardId address cmd : Nat) (ps statuses : List Nat) :
    send_command boardId address cmd ps false true true statuses
      = sendChunksAck boardId address (CTRL_WRITE_BLOCK ||| FLAG_ACK) 1
          (chunksOf MAX_CHUNK_SIZE (cmd :: ps)) statuses := by
  simp [send_command]

/-- C2: in block mode with acknowledgement, the data list `command ::
parameters` is split into ceil(len / MAX_CHUNK_SIZE) chunks whose
concatenation is the data; every frame written belongs to some chunk and
carries its 1-based sequence number; the frames are written in sequence
number order; when the call succeeds, every chunk frame is written; and
when the call terminates with an error there is a failing chunk index i
such that every chunk up to and including i was transmitted and no frame
of any chunk after i is ever written. -/
theorem send_command_block_chunking (boardId address cmd : Nat) (ps statuses : List Nat) :
    (chunksOf MAX_CHUNK_SIZE (cmd :: ps)).flatten = cmd :: ps
    ∧ (chunksOf MAX_CHUNK_SIZE (cmd :: ps)).length
        = ((cmd :: ps).length + MAX_CHUNK_SIZE - 1) / MAX_CHUNK_SIZE
    ∧ (∀ f ∈ (send_command boardId address cmd ps false true true statuses).writes,
        ∃ i, i < (chunksOf MAX_CHUNK_SIZE (cmd :: ps)).length
          ∧ f = buildFrame boardId address (CTRL_WRITE_BLOCK ||| FLAG_ACK) (1 + i)
              ((chunksOf MAX_CHUNK_SIZE (cmd :: ps)).getD i []))
    ∧ (send_command boardId address cmd ps false true true statuses).writes.Pairwise
        (fun f g => seqOf f ≤ seqOf g)
    ∧ ((send_command boardId address cmd ps false true true statuses).err = none →
        ∀ j, j < (chunksOf MAX_CHUNK_SIZE (cmd :: ps)).length →
          buildFrame boardId address (CTRL_WRITE_BLOCK ||| FLAG_ACK) (1 + j)
              ((chunksOf MAX_CHUNK_SIZE (cmd :: ps)).getD j [])
            ∈ (send_command boardId address cmd ps false true true statuses).writes)
    ∧ ((send_command boardId address cmd ps false true true statuses).err ≠ none →
        ∃ i, i < (chunksOf MAX_CHUNK_SIZE (cmd :: ps)).length
          ∧ (∀ j, j ≤ i →
              buildFrame boardId address (CTRL_WRITE_BLOCK ||| FLAG_ACK) (1 + j)
                  ((chunksOf MAX_CHUNK_SIZE (cmd :: ps)).getD j [])
                ∈ (send_command boardId address cmd ps false true true statuses).writes)
          ∧ ∀ j, i < j →
              ∀ f ∈ (send_command boardId address cmd ps false true true statuses).writes,
                f ≠ buildFrame boardId address (CTRL_WRITE_BLOCK ||| FLAG_ACK) (1 + j)
                    ((chunksOf MAX_CHUNK_SIZE (cmd :: ps)).getD j [])) := by
  refine ⟨chunksOf_flatten MAX_CHUNK_SIZE (by decide) _,
    chunksOf_length MAX_CHUNK_SIZE (by decide) _, ?_, ?_, ?_, ?_⟩
  · intro f hf
    rw [send_command_block_ack] at hf
    exact sendChunksAck_mem boardId address (CTRL_WRITE_BLOCK ||| FLAG_ACK) _ 1 _ f hf
  · rw [send_command_block_ack]
    exact sendChunksAck_pairwise boardId address (CTRL_WRITE_BLOCK ||| FLAG_ACK) _ 1 _
  · intro herr j hj
    rw [send_command_block_ack] at herr ⊢
    exact sendChunksAck_success_mem boardId address (CTRL_WRITE_BLOCK ||| FLAG_ACK)
      _ 1 _ herr j hj
  · intro herr
    rw [send_command_block_ack] at herr
    rcases sendChunksAck_abort_bound boardId address (CTRL_WRITE_BLOCK ||| FLAG_ACK)
      _ 1 _ herr with ⟨i, hi, hmem, hbound⟩
    refine ⟨i, hi, ?_, ?_⟩
    · intro j hj
      rw [send_command_block_ack]
      exact hmem j hj
    · intro j hj f hf hcontra
      rw [send_command_block_ack] at hf
      have h1 : seqOf f ≤ 1 + i := hbound f hf
      rw [hcontra, seqOf_buildFrame] at h1
      omega

set_option maxRecDepth 4096 in
/-- Concrete mid-sequence abort: a 129-byte data list splits into two
chunks; with an immediate Nack only the first chunk frame is ever written
and the second chunk frame never appears on the transport. -/
theorem send_command_block_nack_stops_after_first_chunk :
    (send_command 0x41 1 0x42 (List.replicate 128 0x00) false true true [0x15]).writes
      = [buildFrame 0x41 1 (CTRL_WRITE_BLOCK ||| FLAG_ACK) 1
           (0x42 :: List.replicate 127 0x00)]
    ∧ (chunksOf MAX_CHUNK_SIZE (0x42 :: List.replicate 128 0x00)).length = 2 := by
  constructor
  · decide
  · decide

theorem send_command_single_ack (boardId address cmd : Nat) (ps statuses : List Nat)
    (h : ps.length + 1 ≤ MAX_CHUNK_SIZE) :
    send_command boardId address cmd ps false true false statuses
      = sendChunksAck boardId address (CTRL_WRITE_SINGLE ||| FLAG_ACK) 1
          [cmd :: ps] statuses := by
  have hlen : ¬(MAX_CHUNK_SIZE < ps.length + 1) := by
    simp only [MAX_CHUNK_SIZE] at h ⊢
    omega
  have hsingle : chunksOf MAX_CHUNK_SIZE (cmd :: ps) = [cmd :: ps] :=
    chunksOf_single MAX_CHUNK_SIZE cmd ps (by simpa using h)
  simp [send_command, hlen, hsingle]

/-- C3 amended: an acknowledged write against a transport answering every
attempt with Busy (0x10) transmits the frame exactly RETRY_COUNT times
(RETRY_COUNT total attempts, not RETRY_COUNT + 1), sleeping the retry
interval between consecutive attempts (RETRY_COUNT - 1 sleeps), and then
terminates by raising BusyError. -/
theorem send_command_all_busy_retry_bound (boardId address cmd : Nat)
    (ps extra : List Nat) (h : ps.length + 1 ≤ MAX_CHUNK_SIZE) :
    send_command boardId address cmd ps false true false
        (List.replicate RETRY_COUNT STATUS_BUSY ++ extra)
      = ⟨List.replicate RETRY_COUNT
           (buildFrame boardId address (CTRL_WRITE_SINGLE ||| FLAG_ACK) 1 (cmd :: ps)),
         RETRY_COUNT - 1, extra, some SendError.busy⟩ := by
  rw [send_command_single_ack boardId address cmd ps _ h]
  have hwrl := writeRetryLoop_all_busy
    (buildFrame boardId address (CTRL_WRITE_SINGLE ||| FLAG_ACK) 1 (cmd :: ps))
    RETRY_COUNT (by decide) extra
  simp only [sendChunksAck, hwrl]

/-- C3 amended witness: concrete instance with a one-byte command. -/
theorem send_command_all_busy_retry_bound_witness :
    ([] : List Nat).length + 1 ≤ MAX_CHUNK_SIZE
    ∧ send_command 0x41 1 0x42 [] false true false
        (List.replicate RETRY_COUNT STATUS_BUSY ++ [])
      = ⟨List.replicate RETRY_COUNT
           (buildFrame 0x41 1 (CTRL_WRITE_SINGLE ||| FLAG_ACK) 1 [0x42]),
         RETRY_COUNT - 1, [], some SendError.busy⟩ :=
  ⟨by decide, send_command_all_busy_retry_bound 0x41 1 0x42 [] [] (by decide)⟩

/-- C3 counterexample: against an always-Busy transport the frame is written
RETRY_COUNT = 10 times in total, not RETRY_COUNT + 1 = 11 times as the
claim, reading `max_retries` as the configured RETRY_COUNT, states. -/
theorem send_command_all_busy_not_retry_count_succ :
    ¬ ((send_command 0x41 1 0x42 [] false true false
          (List.replicate RETRY_COUNT STATUS_BUSY)).writes.length
        = RETRY_COUNT + 1) := by
  decide

/-- C4: a transaction answered with the Nack status byte 0x15 fails
immediately with a negative acknowledgement and performs no retry:
`check_status` classifies 0x15 as Nack, and `send_command` (which catches
only BusyError) writes exactly the one frame already sent, sleeps zero
times, and writes no frame of any later chunk. -/
theorem send_command_nack_aborts (boardId address cmd : Nat) (ps rest : List Nat) :
    (check_status (STATUS_NACK :: rest)).1 = Status.nack
    ∧ send_command boardId address cmd ps false true true (STATUS_NACK :: rest)
        = ⟨[buildFrame boardId address (CTRL_WRITE_BLOCK ||| FLAG_ACK) 1
              ((cmd :: ps).take MAX_CHUNK_SIZE)],
           0, rest, some SendError.nack⟩ := by
  constructor
  · rfl
  · rw [send_command_block_ack, chunksOf_cons]
    have hwrl := writeRetryLoop_nack
      (buildFrame boardId address (CTRL_WRITE_BLOCK ||| FLAG_ACK) 1
        ((cmd :: ps).take MAX_CHUNK_SIZE)) 9 rest
    simp only [sendChunksAck]
    rw [show RETRY_COUNT = 9 + 1 from rfl, hwrl]

theorem send_command_read_ctrl (boardId address cmd : Nat) (ps statuses : List Nat)
    (ack block : Bool) (h : ps.length + 1 ≤ MAX_CHUNK_SIZE ∨ block = true) :
    send_command boardId address cmd ps true ack block statuses
      = ⟨sendChunksRead boardId address
           (if ack then CTRL_READ ||| FLAG_ACK else CTRL_READ) 1
           (chunksOf MAX_CHUNK_SIZE (cmd :: ps)), 0, statuses, none⟩ := by
  have hc : ¬(MAX_CHUNK_SIZE < (cmd :: ps).length ∧ ¬(block = true)) := by
    rcases h with h | h
    · intro hcon
      have h2 := hcon.1
      simp only [List.length_cons] at h2
      simp only [MAX_CHUNK_SIZE] at h2 h
      omega
    · intro hcon
      exact hcon.2 h
  simp [send_command, hc]
  intro h2
  rcases h with h | h
  · simp only [MAX_CHUNK_SIZE] at h h2
    omega
  · exact h

/-- C10: for a read transaction (`response=True`) the retry loop exits
unconditionally after the first transmission: each chunk frame is written
exactly once, in order with its 1-based sequence number, no status byte is
consumed from the transport, no sleep happens, and no error is raised — the
bounded Busy-retry mechanism applies only to acknowledged writes. -/
theorem send_command_read_writes_each_chunk_once (boardId address cmd : Nat)
    (ps statuses : List Nat) (ack block : Bool)
    (h : ps.length + 1 ≤ MAX_CHUNK_SIZE ∨ block = true) :
    (send_command boardId address cmd ps true ack block statuses).leftover = statuses
    ∧ (send_command boardId address cmd ps true ack block statuses).sleeps = 0
    ∧ (send_command boardId address cmd ps true ack block statuses).err = none
    ∧ (send_command boardId address cmd ps true ack block statuses).writes.length
        = (chunksOf MAX_CHUNK_SIZE (cmd :: ps)).length
    ∧ ∀ i, i < (chunksOf MAX_CHUNK_SIZE (cmd :: ps)).length →
        (send_command boardId address cmd ps true ack block statuses).writes.getD i []
          = buildFrame boardId address
              (if ack then CTRL_READ ||| FLAG_ACK else CTRL_READ) (1 + i)
              ((chunksOf MAX_CHUNK_SIZE (cmd :: ps)).getD i []) := by
  rw [send_command_read_ctrl boardId address cmd ps statuses ack block h]
  refine ⟨rfl, rfl, rfl, sendChunksRead_length _ _ _ _ 1, ?_⟩
  intro i hi
  have := sendChunksRead_getD boardId address
    (if ack then CTRL_READ ||| FLAG_ACK else CTRL_READ) _ 1 i hi
  simpa [Nat.add_comm 1 i] using this

/-- C10 witness: a concrete read transaction over a one-chunk payload with a
pending status byte; the frame is written once and the status byte is left
unread. -/
theorem send_command_read_writes_each_chunk_once_witness :
    (([] : List Nat).length + 1 ≤ MAX_CHUNK_SIZE ∨ false = true)
    ∧ (send_command 0x41 1 0x42 [] true true false [0x15]).leftover = [0x15]
    ∧ (send_command 0x41 1 0x42 [] true true false [0x15]).writes.length
        = (chunksOf MAX_CHUNK_SIZE [0x42]).length :=
  ⟨Or.inl (by decide),
   (send_command_read_writes_each_chunk_once 0x41 1 0x42 [] [0x15] true false
      (Or.inl (by decide))).1,
   (send_command_read_writes_each_chunk_once 0x41 1 0x42 [] [0x15] true false
      (Or.inl (by decide))).2.2.2.1⟩

end K9000
